import Mathlib

/-!
Verification of the batch spectral-data merge engine of
`ecosys_curator.py` (EcoSIS_Curator).

The engine's I/O effect on a batch output file is modelled as a list of
tokens (`Tok`), one token per `output_file.write` / `json.dump` call site
in the source; syntactic JSON validity of the written file is the regular
grammar `validBatch` over those tokens.  The `MemoryMonitor` is modelled
through the two methods the processing code calls
(`should_pause_processing`, `get_current_memory_mb`) as call-indexed
oracles; psutil queries are rationals (`Option ℚ`, `none` = the query
raised).  Records are abstract payloads (`Nat` ids): every record loaded
by `json.load` is JSON-serializable, so a failure during the `json.dump`
of a record (e.g. `MemoryError`, a disk error) is modelled by an injected
failure index `FileData.failAt`.  Python float arithmetic in the batch
planner is embedded as exact rational arithmetic.
-/

namespace EcosisCurator

/-- One token per write call in the source.  Each constructor stands for a
fixed byte string (shown in the comment), so a token list denotes the
concatenation of those strings. -/
inductive Tok where
  /-- lines 3319-3326: the batch file opening, through `"datasets": [\n`. -/
  | batchHeader
  /-- line 3060: `,\n` between dataset entries. -/
  | comma
  /-- lines 3063-3069: `    {\n "source_file": "...",\n "dataset_info": <json>,\n`. -/
  | dsOpen
  /-- line 3088: `"spectra_count": n,\n`. -/
  | spectraCount (n : Nat)
  /-- line 3089: `"spectra": [\n`. -/
  | spectraOpen
  /-- line 3107: `,\n` between records. -/
  | recSep
  /-- line 3109: one record serialized by `json.dump`. -/
  | record (r : Nat)
  /-- the bytes `json.dump` managed to emit before raising mid-record. -/
  | recTrunc
  /-- lines 3127-3128: `\n      ]\n    }` closing one dataset entry. -/
  | dsClose
  /-- line 3359: `\n  ]\n}\n` closing the batch file. -/
  | batchFooter
deriving DecidableEq, Repr

/-- One input file as the merge engine observes it.  `parseOk` is whether
`open` + `json.load` + the `data.get` calls succeed (a corrupt, missing or
non-object file has `parseOk = false` and contributes no bytes).
`spectra` is the record list (`data.get('spectra', [])`), abstract payload
ids.  `failAt = some k` injects an exception (e.g. `MemoryError`) raised
during the `json.dump` of the k-th record written for this file. -/
structure FileData where
  parseOk : Bool
  spectra : List Nat
  failAt : Option Nat
deriving DecidableEq, Repr

/-- The `MemoryMonitor` as seen by the processing code: `pause n` is the
result of the n-th `should_pause_processing()` call on this monitor,
`mem n` the result of the n-th `get_current_memory_mb()` call (MB). -/
structure MemEnv where
  pause : Nat → Bool
  mem : Nat → ℚ

/-- Result of emitting a run of records (the inner loop, lines 3103-3116).
`written` is the updated `spectra_written`; `ab = true` means an exception
escaped a record's `json.dump` (the partial bytes are in `toks`). -/
structure RecOut where
  toks : List Tok
  written : Nat
  ab : Bool
deriving DecidableEq, Repr

/-- Lines 3103-3110: write the given record payloads in order, starting
from `spectra_written = written`.  The separator `,\n` is written before a
record whenever `written > 0` (line 3106); an injected failure at write
index `failAt` raises after the separator and the partial record bytes. -/
def writeRecSeq (failAt : Option Nat) : List Nat → Nat → RecOut
  | [], written => ⟨[], written, false⟩
  | r :: rest, written =>
    if failAt = some written then
      ⟨(if 0 < written then [Tok.recSep] else []) ++ [Tok.recTrunc], written, true⟩
    else
      let o := writeRecSeq failAt rest (written + 1)
      ⟨((if 0 < written then [Tok.recSep] else []) ++ [Tok.record r]) ++ o.toks,
       o.written, o.ab⟩

/-- Result of the chunk loop (lines 3094-3125): tokens written, final
`spectra_written`, the monitor call counters, and whether an exception
escaped a record write. -/
structure ChunkOut where
  toks : List Tok
  written : Nat
  pc : Nat
  mc : Nat
  ab : Bool
deriving DecidableEq, Repr

/-- Lines 3094-3125: `for chunk_start in range(0, limit, chunk)`.  At the
top of each iteration the code evaluates
`spectra_written > 500 and memory_monitor.should_pause_processing()`
(line 3096, short-circuit: the monitor is consulted only once more than
500 records are written) and breaks on true.  Then it writes the chunk
`spectra[chunk_start:chunk_end]`; after a completed chunk, the progress
feedback at line 3123 calls `get_current_memory_mb` when
`spectra_written % 500 == 0`.  The first argument is fuel (one unit per
iteration; callers pass `limit + 1`, always enough since `chunk ≥ 1`). -/
def chunkLoop (spectra : List Nat) (failAt : Option Nat) (pauseF : Nat → Bool)
    (chunk limit : Nat) : Nat → Nat → Nat → Nat → Nat → ChunkOut
  | 0, _, written, pc, mc => ⟨[], written, pc, mc, false⟩
  | fuel + 1, start, written, pc, mc =>
    if start < limit then
      if 500 < written ∧ pauseF pc = true then ⟨[], written, pc + 1, mc, false⟩
      else
        let pc1 := if 500 < written then pc + 1 else pc
        let stop := min (start + chunk) limit
        let o := writeRecSeq failAt ((spectra.drop start).take (stop - start)) written
        if o.ab then ⟨o.toks, o.written, pc1, mc, true⟩
        else
          let mc1 := if o.written % 500 = 0 ∧ 0 < o.written then mc + 1 else mc
          let rest := chunkLoop spectra failAt pauseF chunk limit fuel stop o.written pc1 mc1
          ⟨o.toks ++ rest.toks, rest.written, rest.pc, rest.mc, rest.ab⟩
    else ⟨[], written, pc, mc, false⟩

/-- Lines 3071-3086: chunk size, `max_spectra`, and the DEBUG log of the
record cap (`some max_spectra` models the line-3078 print surfacing the
cap).  `n` is `len(spectra)`, `memInc` the memory increase measured after
loading. -/
def chunkCfg (n : Nat) (memInc : ℚ) : Nat × Nat × Option Nat :=
  if 5000 < n ∧ 200 < memInc then (25, min n 2000, some (min n 2000))
  else if 1000 < n then (100, n, none)
  else (n, n, none)

/-- Result of `process_single_file_streaming_safe`: tokens appended to the
batch output file, the Python return value (`spectra_written`, or 0 on any
exception), the monitor call counters after the call, and the record-cap
log event (line 3078) if it fired. -/
structure FileResult where
  toks : List Tok
  count : Nat
  pc : Nat
  mc : Nat
  largeDsLog : Option Nat
deriving DecidableEq, Repr

/-- Lines 3025-3170, `process_single_file_streaming_safe(filepath,
output_file, is_first_dataset, memory_monitor)`.  `pc`/`mc` are the
monitor's call counters on entry.  Control flow mirrors the source:
memory snapshot (3035), pre-load pause check returning 0 (3036-3038),
`json.load` and structure checks (3040-3049, exceptions caught at
3154-3160 after writing nothing), post-load memory snapshot (3052),
comma + entry header (3058-3069), chunk strategy (3071-3086),
`spectra_count` and `spectra` opening (3088-3089), the chunk loop,
the entry closing (3127-3128) and final memory snapshot (3131) on the
normal path; on an exception escaping a record write the handlers
(3145-3160) return 0 leaving the partial bytes in the output. -/
def process_single_file_streaming_safe (fd : FileData) (first : Bool) (env : MemEnv)
    (pc mc : Nat) : FileResult :=
  let initialMem := env.mem mc
  if env.pause pc then ⟨[], 0, pc + 1, mc + 1, none⟩
  else if fd.parseOk = false then ⟨[], 0, pc + 1, mc + 1, none⟩
  else if fd.spectra = [] then ⟨[], 0, pc + 1, mc + 1, none⟩
  else
    let postLoad := env.mem (mc + 1)
    let memInc := postLoad - initialMem
    let n := fd.spectra.length
    let cfg := chunkCfg n memInc
    let limit := min cfg.2.1 n
    let pre := (if first then ([] : List Tok) else [Tok.comma]) ++
      [Tok.dsOpen, Tok.spectraCount limit, Tok.spectraOpen]
    let o := chunkLoop fd.spectra fd.failAt env.pause cfg.1 limit (limit + 1) 0 0 (pc + 1) (mc + 2)
    if o.ab then ⟨pre ++ o.toks, 0, o.pc, o.mc, cfg.2.2⟩
    else ⟨pre ++ o.toks ++ [Tok.dsClose], o.written, o.pc, o.mc + 1, cfg.2.2⟩

/-- Accumulated state of the per-file loop of one batch (lines 3330-3356):
tokens written by the files, datasets counted, spectra counted, and the
number of files whose loop iteration began (`started`; after a memory
break the remaining files never begin). -/
structure LoopOut where
  toks : List Tok
  ds : Nat
  sp : Nat
  started : Nat
deriving DecidableEq, Repr

/-- Lines 3330-3356: the per-file loop of `process_single_batch_threaded`.
Before each file the batch's monitor is consulted
(`memory_monitor.should_pause_processing()`, line 3337) and on true the
loop breaks.  The per-file `try/except` (3341-3352) is inside
`process_single_file_streaming_safe` itself, which never raises; counts
are added and `first_dataset` cleared only when the returned count is
positive (3345-3348).  `pc`/`mc` thread the batch monitor's call
counters. -/
def batchLoop (env : MemEnv) : List FileData → Bool → Nat → Nat → LoopOut
  | [], _, _, _ => ⟨[], 0, 0, 0⟩
  | f :: rest, first, pc, mc =>
    if env.pause pc then ⟨[], 0, 0, 0⟩
    else
      let r := process_single_file_streaming_safe f first env (pc + 1) mc
      let rec1 := batchLoop env rest (if 0 < r.count then false else first) r.pc r.mc
      ⟨r.toks ++ rec1.toks,
       (if 0 < r.count then 1 else 0) + rec1.ds,
       r.count + rec1.sp,
       1 + rec1.started⟩

/-- Result of `process_single_batch_threaded`: the batch file's content as
tokens (`none` when opening the output file raised, so no file was
created), and the returned `(datasets_processed, total_spectra)` pair.
`started` reports how many files began processing (for the engine
clock). -/
structure BatchResult where
  toks : Option (List Tok)
  datasets : Nat
  spectra : Nat
  started : Nat
deriving DecidableEq, Repr

/-- Lines 3308-3365, `process_single_batch_threaded(batch_files,
output_filepath)`.  A fresh `MemoryMonitor` is created for the batch
(line 3312), so the call counters start at 0.  `ioFail` models the
batch-level I/O error path: `open` at line 3317 raising, caught by the
outer handler (3363-3365) which returns `(0, 0)`.  On the normal path the
header (3319-3326) is written, the file loop runs, and the footer
(line 3359) is written after the loop — the loop only ever breaks or
continues, so the footer is reached whenever the body of the `with` is
not aborted. -/
def process_single_batch_threaded (files : List FileData) (env : MemEnv)
    (ioFail : Bool) : BatchResult :=
  if ioFail then ⟨none, 0, 0, 0⟩
  else
    let lo := batchLoop env files true 0 0
    ⟨some (Tok.batchHeader :: (lo.toks ++ [Tok.batchFooter])), lo.ds, lo.sp, lo.started⟩

/-- Line 3178 / 3282: `total_batches = (len(files) + files_per_batch - 1)
// files_per_batch`. -/
def totalBatches (nFiles fpb : Nat) : Nat := (nFiles + fpb - 1) / fpb

/-- Lines 3205-3207: `batch_files = spectra_files[start_idx:end_idx]`,
the b-th contiguous slice of the input list. -/
def batchSlice {α : Type} (files : List α) (fpb b : Nat) : List α :=
  (files.drop (b * fpb)).take fpb

/-- The `self.batch_progress` dictionary (lines 3181-3192).  The free-text
`current_status` string is omitted (pure UI text, referenced by no
claim). -/
structure Progress where
  current_batch : Nat
  total_batches : Nat
  current_file : Nat
  current_batch_files : Nat
  successful_batches : Nat
  total_datasets : Nat
  total_spectra : Nat
  completed : Bool
  error : Option String
deriving DecidableEq, Repr

/-- Environment of one worker run.  `menv b` is the fresh monitor of batch
`b`; `ioFail b` whether batch b's output open raises.  The cancellation
flag (`progress_dialog.cancelled`, set by the UI thread) and the
`_destroyed` flag are modelled against a coarse clock that advances by
one tick per file processed: the flag reads true at time `t` iff its
set-time is `≤ t` (`none` = never set). -/
structure WorkerEnv where
  menv : Nat → MemEnv
  ioFail : Nat → Bool
  cancelAt : Option Nat
  destroyedAt : Option Nat

/-- Reading a set-once flag at clock time `t`. -/
def flagAt : Option Nat → Nat → Bool
  | none, _ => false
  | some T, t => T ≤ t

/-- Observable outcome of a worker run: final progress dictionary, the
content of each attempted batch's output file in order (`none` = open
failed, no file), the clock times at which batches passed their checks
and at which files began processing. -/
structure RunOut where
  progress : Progress
  outputs : List (Option (List Tok))
  batchStarts : List (Nat × Nat)
  fileStarts : List (Nat × Nat × Nat)

/-- Lines 3194-3235: the per-batch loop of `batch_processing_worker`.
Before each batch — and only there — the worker checks `self._destroyed`
(3196-3198) then the dialog's cancellation flag (3201-3203), returning
with the corresponding error message; no cancellation check exists inside
a batch.  Then it slices the batch, processes it, and adds the counts to
the progress dictionary only when `batch_datasets > 0` (3219-3222). -/
def workerLoop (env : WorkerEnv) (files : List FileData) (fpb : Nat) :
    List Nat → Nat → Progress → RunOut
  | [], _, p => ⟨{ p with completed := true }, [], [], []⟩
  | b :: bs, t, p =>
    if flagAt env.destroyedAt t then
      ⟨{ p with error := some "Application closing" }, [], [], []⟩
    else if flagAt env.cancelAt t then
      ⟨{ p with error := some "Cancelled by user" }, [], [], []⟩
    else
      let bf := batchSlice files fpb b
      let p1 := { p with current_batch := b + 1, current_batch_files := bf.length,
                         current_file := 0 }
      let r := process_single_batch_threaded bf (env.menv b) (env.ioFail b)
      let p2 := if 0 < r.datasets then
          { p1 with successful_batches := p1.successful_batches + 1,
                    total_datasets := p1.total_datasets + r.datasets,
                    total_spectra := p1.total_spectra + r.spectra,
                    current_file := r.started }
        else { p1 with current_file := r.started }
      let rest := workerLoop env files fpb bs (t + r.started) p2
      ⟨rest.progress, r.toks :: rest.outputs, (b, t) :: rest.batchStarts,
       ((List.range r.started).map fun i => (b, i, t + i)) ++ rest.fileStarts⟩

/-- Lines 3172-3248, `batch_processing_worker(spectra_files, output_dir,
files_per_batch)`: initializes the progress dictionary (3181-3192) and
runs the batches in order. -/
def batch_processing_worker (env : WorkerEnv) (files : List FileData)
    (fpb : Nat) : RunOut :=
  let tb := totalBatches files.length fpb
  workerLoop env files fpb (List.range tb) 0
    { current_batch := 0, total_batches := tb, current_file := 0,
      current_batch_files := 0, successful_batches := 0, total_datasets := 0,
      total_spectra := 0, completed := false, error := none }

/-! ## MemoryMonitor (lines 203-315)

The three psutil-backed getters each swallow their own exceptions and
return 0 (`except: return 0`), so a failed OS query reaches
`should_pause_processing` as the value 0. -/

/-- Lines 217-229, `get_current_memory_mb`: process RSS in MB, 0 if the
psutil query raised (`rssBytes = none`).  The peak-tracking side effect is
ignored (never read by the merge engine). -/
def get_current_memory_mb (rssBytes : Option ℚ) : ℚ :=
  match rssBytes with
  | some r => r / (1024 * 1024)
  | none => 0

/-- Lines 231-236, `get_system_memory_percent`: 0 if the query raised. -/
def get_system_memory_percent (percent : Option ℚ) : ℚ := percent.getD 0

/-- Lines 238-243, `get_available_memory_gb`: available bytes / 1024³,
0 if the query raised. -/
def get_available_memory_gb (availBytes : Option ℚ) : ℚ :=
  match availBytes with
  | some a => a / (1024 * 1024 * 1024)
  | none => 0

/-- Lines 277-311, `should_pause_processing`.  `criticalThreshold` is
`self.critical_threshold_percent` (75 by default, 60 for batch monitors),
`initialMb` is `self.initial_memory_mb`.  The three getters never raise
(each has its own handler), and the remaining arithmetic is total, so the
outer `except ... return True` (3308-3311) is unreachable and the returned
value is determined by the conditions below; the hard-coded constants are
`oom_protection_threshold = 85`, the 0.2 GB floor, the 500 MB growth
bound and the 800 MB RSS bound. -/
def should_pause_processing (criticalThreshold initialMb : ℚ)
    (rssBytes percent availBytes : Option ℚ) : Bool :=
  let system_percent := get_system_memory_percent percent
  let current_memory_mb := get_current_memory_mb rssBytes
  let available_gb := get_available_memory_gb availBytes
  if 85 < system_percent then true
  else if available_gb < 1 / 5 then true
  else
    let memory_growth_mb := current_memory_mb - initialMb
    if criticalThreshold < system_percent ∨ 500 < memory_growth_mb ∨
        800 < current_memory_mb then true
    else false

/-! ## Batch planning (lines 3379-3404, `on_merge_local_spectra`) -/

/-- One directory entry considered by the scan loop at lines 3381-3385:
whether the filename matches `spectra_*.json` (string test abstracted to a
flag), its byte size, and its content. -/
structure Cand where
  pattern : Bool
  size : Nat
  content : FileData
deriving DecidableEq, Repr

/-- Lines 3381-3385: keep a file only when its name matches and
`os.path.getsize(filepath) > 100`. -/
def scan_spectra_files (cs : List Cand) : List Cand :=
  cs.filter fun c => c.pattern ∧ 100 < c.size

/-- Lines 3394-3404: `files_per_batch` from the kept files' byte sizes and
`psutil.virtual_memory().available`.  Python float arithmetic is embedded
as exact rationals (0.2 = 1/5, 2.5 = 5/2); `int()` on the non-negative
quotient is `Rat.floor`.  The source computes, in order: total size in MB,
available GB, `safe_memory_mb = available_gb * 0.2 * 1024`,
`estimated_mb_per_file = total_size_mb / len(files)`, and
`max(1, int(safe_memory_mb / (estimated_mb_per_file * 2.5)))`. -/
def files_per_batch (sizes : List Nat) (availBytes : Nat) : Nat :=
  let total_size_mb : ℚ := (sizes.map fun (s : Nat) => (s : ℚ) / (1024 * 1024)).sum
  let available_gb : ℚ := (availBytes : ℚ) / (1024 * 1024 * 1024)
  let safe_memory_mb : ℚ := available_gb * (1 / 5) * 1024
  let estimated_mb_per_file : ℚ := total_size_mb / (sizes.length : ℚ)
  max 1 (safe_memory_mb / (estimated_mb_per_file * (5 / 2))).floor.toNat

/-- Modelled from the spec: the planner formula as the claim states it,
`max(1, floor(safe_budget_bytes / (avg_file_bytes * 2.5)))` with
`safe_budget_bytes` = 20% of available memory and `avg_file_bytes` the
mean input size, for comparison with `files_per_batch` above. -/
def files_per_batch_spec (sizes : List Nat) (availBytes : Nat) : Nat :=
  let safe_budget_bytes : ℚ := (availBytes : ℚ) * (1 / 5)
  let avg_file_bytes : ℚ := (sizes.sum : ℚ) / (sizes.length : ℚ)
  max 1 (safe_budget_bytes / (avg_file_bytes * (5 / 2))).floor.toNat

/-! ## Syntactic validity of a batch output file

The written file is the concatenation of the byte strings the tokens
stand for.  It parses as JSON exactly when the token sequence is
`batchHeader (entry (comma entry)*)? batchFooter` with each entry
`dsOpen spectraCount spectraOpen (record (recSep record)*)? dsClose`
(records themselves are `json.dump`s of `json.load`ed values, hence
well-formed).  This regular grammar is decided by the DFA below. -/

/-- DFA states for the batch-file grammar. -/
inductive VSt where
  | s0 | s1 | s2 | s3 | s4 | s5 | s6 | s7 | s8 | sF | bad
deriving DecidableEq, Repr

/-- DFA transition: `s0` start, `s1` after the header, `s2`-`s6` inside an
entry, `s7` after a complete entry, `s8` after a separating comma, `sF`
after the footer, `bad` sink. -/
def vstep : VSt → Tok → VSt
  | .s0, .batchHeader => .s1
  | .s1, .dsOpen => .s2
  | .s1, .batchFooter => .sF
  | .s2, .spectraCount _ => .s3
  | .s3, .spectraOpen => .s4
  | .s4, .record _ => .s5
  | .s4, .dsClose => .s7
  | .s5, .recSep => .s6
  | .s5, .dsClose => .s7
  | .s6, .record _ => .s5
  | .s7, .comma => .s8
  | .s7, .batchFooter => .sF
  | .s8, .dsOpen => .s2
  | _, _ => .bad

/-- A token sequence denotes a syntactically valid, independently
parseable batch JSON file. -/
def validBatch (ts : List Tok) : Prop := ts.foldl vstep VSt.s0 = VSt.sF

instance (ts : List Tok) : Decidable (validBatch ts) := by
  unfold validBatch; infer_instance

/-- Tokens produced by writing the record payloads `rs` in order when
`written` records have already been written for this entry (a `,\n`
separator goes before every record except the very first of the entry).
Characterizes the loop output in the lemmas below. -/
def recsToksFrom (written : Nat) : List Nat → List Tok
  | [] => []
  | r :: rest =>
    ((if 0 < written then [Tok.recSep] else []) ++ [Tok.record r]) ++
      recsToksFrom (written + 1) rest

/-! ## Characterization of the record-writing loops -/

theorem recsToksFrom_append (w : Nat) (xs ys : List Nat) :
    recsToksFrom w (xs ++ ys) =
      recsToksFrom w xs ++ recsToksFrom (w + xs.length) ys := by
  induction xs generalizing w with
  | nil => simp [recsToksFrom]
  | cons x t ih =>
    simp only [List.cons_append, recsToksFrom, List.length_cons, List.append_assoc,
      List.append_eq]
    rw [ih (w + 1), show w + 1 + t.length = w + (t.length + 1) from by omega]

theorem mem_recsToksFrom {x : Tok} {w : Nat} {l : List Nat}
    (h : x ∈ recsToksFrom w l) : x = Tok.recSep ∨ ∃ r, x = Tok.record r := by
  induction l generalizing w with
  | nil => simp [recsToksFrom] at h
  | cons a t ih =>
    simp only [recsToksFrom, List.mem_append] at h
    rcases h with h | h
    · rcases h with h | h
      · split at h <;> simp_all
      · simp_all
    · exact ih h

theorem writeRecSeq_none (rs : List Nat) (w : Nat) :
    writeRecSeq none rs w = ⟨recsToksFrom w rs, w + rs.length, false⟩ := by
  induction rs generalizing w with
  | nil => simp [writeRecSeq, recsToksFrom]
  | cons r rest ih =>
    simp only [writeRecSeq, ih (w + 1), recsToksFrom, List.length_cons,
      reduceCtorEq, if_false]
    rw [show w + 1 + rest.length = w + (rest.length + 1) from by omega]

theorem writeRecSeq_ge (k : Nat) (rs : List Nat) (w : Nat)
    (h : w + rs.length ≤ k) :
    writeRecSeq (some k) rs w = ⟨recsToksFrom w rs, w + rs.length, false⟩ := by
  induction rs generalizing w with
  | nil => simp [writeRecSeq, recsToksFrom]
  | cons r rest ih =>
    have hne : ¬ ((some k : Option Nat) = some w) := by
      simp only [Option.some.injEq]
      simp at h; omega
    simp only [writeRecSeq, hne, if_false, ih (w + 1) (by simp at h ⊢; omega),
      recsToksFrom, List.length_cons]
    rw [show w + 1 + rest.length = w + (rest.length + 1) from by omega]

theorem writeRecSeq_fail (k : Nat) (rs : List Nat) (w : Nat)
    (hw : w ≤ k) (hk : k < w + rs.length) :
    writeRecSeq (some k) rs w =
      ⟨recsToksFrom w (rs.take (k - w)) ++
        (if 0 < k then [Tok.recSep, Tok.recTrunc] else [Tok.recTrunc]), k, true⟩ := by
  induction rs generalizing w with
  | nil => simp at hk; omega
  | cons r rest ih =>
    by_cases hkw : k = w
    · subst hkw
      simp only [writeRecSeq, if_pos rfl, Nat.sub_self, List.take_zero,
        recsToksFrom, List.nil_append]
      by_cases h0 : 0 < k <;> simp [h0]
    · have hlt : w < k := by omega
      have hne : ¬ ((some k : Option Nat) = some w) := by simp; omega
      have hsub : k - w = (k - (w + 1)) + 1 := by omega
      simp only [writeRecSeq, hne, if_false,
        ih (w + 1) (by omega) (by simp at hk ⊢; omega), hsub, List.take_succ_cons,
        recsToksFrom, List.append_assoc]

/-- The chunk loop is a no-op once `chunk_start` has reached the limit. -/
theorem chunkLoop_done (spectra : List Nat) (failAt : Option Nat)
    (pauseF : Nat → Bool) (chunk limit : Nat) (fuel start written pc mc : Nat)
    (h : limit ≤ start) :
    chunkLoop spectra failAt pauseF chunk limit fuel start written pc mc =
      ⟨[], written, pc, mc, false⟩ := by
  cases fuel with
  | zero => rfl
  | succ f => simp [chunkLoop, Nat.not_lt.mpr h]


theorem slice_take_add (spectra : List Nat) (start stop w : Nat)
    (h1 : start ≤ stop) (h2 : stop ≤ w) :
    (spectra.drop start).take (stop - start) ++ (spectra.drop stop).take (w - stop) =
      (spectra.drop start).take (w - start) := by
  rw [show w - start = (stop - start) + (w - stop) from by omega, List.take_add]
  congr 2
  rw [List.drop_drop]
  congr 1
  omega

theorem recsToksFrom_slice_append (spectra : List Nat) (start stop w : Nat)
    (h1 : start ≤ stop) (h2 : stop ≤ w) (hlen : stop ≤ spectra.length) :
    recsToksFrom start ((spectra.drop start).take (stop - start)) ++
      recsToksFrom stop ((spectra.drop stop).take (w - stop)) =
      recsToksFrom start ((spectra.drop start).take (w - start)) := by
  rw [← slice_take_add spectra start stop w h1 h2, recsToksFrom_append]
  congr 2
  simp only [List.length_take, List.length_drop]
  omega

/-- Full characterization of the chunk loop when no record write fails:
it never aborts, `spectra_written` ends somewhere between `start` and
`limit`, the tokens are exactly the records written in input order, a
pause-free monitor lets it reach `limit`, and the first chunk (whose
boundary check is skipped while `written ≤ 500`) always completes. -/
theorem chunkLoop_nofail (spectra : List Nat) (pauseF : Nat → Bool)
    (chunk limit : Nat) (hch : 0 < chunk) (hlim : limit ≤ spectra.length) :
    ∀ (fuel start pc mc : Nat), start ≤ limit → limit ≤ start + fuel →
      ∃ w pcr mcr,
        chunkLoop spectra none pauseF chunk limit fuel start start pc mc =
          ⟨recsToksFrom start ((spectra.drop start).take (w - start)), w, pcr, mcr,
            false⟩ ∧
        start ≤ w ∧ w ≤ limit ∧
        ((∀ p, pauseF p = false) → w = limit) ∧
        (start < limit → start ≤ 500 → min (start + chunk) limit ≤ w) := by
  intro fuel
  induction fuel with
  | zero =>
    intro start pc mc h1 h2
    exact ⟨start, pc, mc, by simp [chunkLoop, recsToksFrom], le_refl _, by omega,
      fun _ => by omega, fun h _ => by omega⟩
  | succ fuel ih =>
    intro start pc mc h1 h2
    by_cases hsl : start < limit
    · by_cases hpb : 500 < start ∧ pauseF pc = true
      · refine ⟨start, pc + 1, mc, ?_, le_refl _, by omega,
          fun hp => absurd hpb.2 (by simp [hp pc]),
          fun _ h500 => absurd hpb.1 (by omega)⟩
        simp [chunkLoop, if_pos hsl, if_pos hpb, recsToksFrom]
      · have hstop1 : start ≤ min (start + chunk) limit := by omega
        have hstop2 : min (start + chunk) limit ≤ limit := by omega
        have hslicelen :
            ((spectra.drop start).take (min (start + chunk) limit - start)).length =
              min (start + chunk) limit - start := by
          simp only [List.length_take, List.length_drop]
          omega
        obtain ⟨w, pcr, mcr, heq, hw1, hw2, hw3, _⟩ :=
          ih (min (start + chunk) limit)
            (if 500 < start then pc + 1 else pc)
            (if (min (start + chunk) limit) % 500 = 0 ∧ 0 < min (start + chunk) limit
              then mc + 1 else mc)
            hstop2 (by omega)
        refine ⟨w, pcr, mcr, ?_, by omega, hw2, hw3, fun _ _ => by omega⟩
        simp only [chunkLoop, if_pos hsl, if_neg hpb, writeRecSeq_none, hslicelen,
          show start + (min (start + chunk) limit - start) = min (start + chunk) limit
            from by omega, heq, reduceCtorEq, if_false]
        rw [recsToksFrom_slice_append spectra start (min (start + chunk) limit) w
          hstop1 hw1 (by omega)]
    · exact ⟨start, pc, mc, by simp [chunkLoop, if_neg hsl, recsToksFrom], le_refl _,
        by omega, fun _ => by omega, fun h _ => absurd h hsl⟩

/-- Characterization of the chunk loop when the write of record `k`
raises (for a monitor that never requests a pause): the loop aborts with
`spectra_written = k`, having emitted records `0..k-1` and the partial
bytes of record `k`. -/
theorem chunkLoop_fail (spectra : List Nat) (pauseF : Nat → Bool)
    (chunk limit k : Nat) (hch : 0 < chunk) (hlim : limit ≤ spectra.length)
    (hp : ∀ p, pauseF p = false) :
    ∀ (fuel start pc mc : Nat), start ≤ k → k < limit → limit ≤ start + fuel →
      ∃ pcr mcr,
        chunkLoop spectra (some k) pauseF chunk limit fuel start start pc mc =
          ⟨recsToksFrom start ((spectra.drop start).take (k - start)) ++
            (if 0 < k then [Tok.recSep, Tok.recTrunc] else [Tok.recTrunc]), k, pcr,
            mcr, true⟩ := by
  intro fuel
  induction fuel with
  | zero => intro start pc mc h1 h2 h3; omega
  | succ fuel ih =>
    intro start pc mc h1 h2 h3
    have hsl : start < limit := by omega
    have hpb : ¬ (500 < start ∧ pauseF pc = true) := by
      intro h; rw [hp pc] at h; exact absurd h.2 (by simp)
    have hstop1 : start ≤ min (start + chunk) limit := by omega
    have hstop2 : min (start + chunk) limit ≤ limit := by omega
    have hslicelen :
        ((spectra.drop start).take (min (start + chunk) limit - start)).length =
          min (start + chunk) limit - start := by
      simp only [List.length_take, List.length_drop]
      omega
    by_cases hkin : k < min (start + chunk) limit
    · refine ⟨if 500 < start then pc + 1 else pc, mc, ?_⟩
      simp only [chunkLoop, if_pos hsl, if_neg hpb,
        writeRecSeq_fail k _ start h1 (by rw [hslicelen]; omega),
        List.take_take, show min (k - start) (min (start + chunk) limit - start) =
          k - start from by omega]
      simp
    · obtain ⟨pcr, mcr, heq⟩ :=
        ih (min (start + chunk) limit)
          (if 500 < start then pc + 1 else pc)
          (if (min (start + chunk) limit) % 500 = 0 ∧ 0 < min (start + chunk) limit
            then mc + 1 else mc)
          (by omega) h2 (by omega)
      refine ⟨pcr, mcr, ?_⟩
      simp only [chunkLoop, if_pos hsl, if_neg hpb,
        writeRecSeq_ge k _ start (by rw [hslicelen]; omega), hslicelen,
        show start + (min (start + chunk) limit - start) = min (start + chunk) limit
          from by omega, heq, reduceCtorEq, if_false]
      rw [← List.append_assoc,
        recsToksFrom_slice_append spectra start (min (start + chunk) limit) k
          hstop1 (by omega) (by omega)]


theorem chunkCfg_fst_pos (n : Nat) (m : ℚ) (hn : 0 < n) : 0 < (chunkCfg n m).1 := by
  unfold chunkCfg
  split_ifs <;> simp <;> omega

theorem chunkCfg_snd_pos (n : Nat) (m : ℚ) (hn : 0 < n) : 0 < (chunkCfg n m).2.1 := by
  unfold chunkCfg
  split_ifs <;> simp <;> omega

theorem chunkCfg_small (n : Nat) (m : ℚ) (hn : n ≤ 1000) :
    chunkCfg n m = (n, n, none) := by
  unfold chunkCfg
  rw [if_neg (by simp; intro h; omega), if_neg (by omega)]

theorem chunkCfg_no_cap (n : Nat) (m : ℚ) (hm : ¬ 200 < m) :
    (chunkCfg n m).2.1 = n ∧ (chunkCfg n m).2.2 = none := by
  unfold chunkCfg
  rw [if_neg (by rintro ⟨h1, h2⟩; exact hm h2)]
  split_ifs <;> simp

theorem chunkCfg_cap (n : Nat) (m : ℚ) (hn : 5000 < n) (hm : 200 < m) :
    chunkCfg n m = (25, 2000, some 2000) := by
  unfold chunkCfg
  rw [if_pos ⟨hn, hm⟩, show min n 2000 = 2000 from by omega]

/-- A single chunk covering the whole range (the `chunk_size =
spectra_count` strategy of small files): the boundary check at
`spectra_written = 0` never consults the monitor, so everything is
written and the pause-call counter is untouched. -/
theorem chunkLoop_single (spectra : List Nat) (pauseF : Nat → Bool)
    (chunk limit fuel pc mc : Nat) (hck : limit ≤ chunk)
    (hlim : limit ≤ spectra.length) (h0 : 0 < limit) (hfuel : 0 < fuel) :
    ∃ mcr, chunkLoop spectra none pauseF chunk limit fuel 0 0 pc mc =
      ⟨recsToksFrom 0 (spectra.take limit), limit, pc, mcr, false⟩ := by
  cases fuel with
  | zero => omega
  | succ f =>
    refine ⟨if limit % 500 = 0 ∧ 0 < limit then mc + 1 else mc, ?_⟩
    have hnp : ¬ (500 < 0 ∧ pauseF pc = true) := by simp
    have hstop : chunk ⊓ limit = limit := by omega
    have hlen : (spectra.take limit).length = limit := by
      simp only [List.length_take]
      omega
    simp only [chunkLoop, if_pos h0, if_neg hnp, Nat.sub_zero,
      List.drop_zero, writeRecSeq_none, Nat.zero_add, hstop, hlen,
      if_neg (Nat.not_lt_zero 500), reduceCtorEq, if_false,
      chunkLoop_done spectra none pauseF chunk limit f limit _ _ _ (le_refl _),
      List.append_nil]

/-- Characterization of `process_single_file_streaming_safe` on a
loadable, non-empty file with no record-write failure: it writes one
complete dataset entry holding its first `w` records and returns `w`,
where `w` is at most the strategy's limit, is the full limit when the
monitor never pauses, and is the full record count with no mid-write
monitor consultation for files of at most 500 records. -/
theorem processFile_nofail (fd : FileData) (env : MemEnv) (pc mc : Nat)
    (first : Bool) (hparse : fd.parseOk = true) (hne : fd.spectra ≠ [])
    (hfail : fd.failAt = none) (hpc : env.pause pc = false) :
    ∃ w pcr mcr,
      process_single_file_streaming_safe fd first env pc mc =
        ⟨(if first then ([] : List Tok) else [Tok.comma]) ++
          [Tok.dsOpen,
            Tok.spectraCount (min (chunkCfg fd.spectra.length
              (env.mem (mc + 1) - env.mem mc)).2.1 fd.spectra.length),
            Tok.spectraOpen] ++
          recsToksFrom 0 (fd.spectra.take w) ++ [Tok.dsClose],
         w, pcr, mcr,
         (chunkCfg fd.spectra.length (env.mem (mc + 1) - env.mem mc)).2.2⟩ ∧
      1 ≤ w ∧
      w ≤ min (chunkCfg fd.spectra.length (env.mem (mc + 1) - env.mem mc)).2.1
        fd.spectra.length ∧
      ((∀ p, env.pause p = false) →
        w = min (chunkCfg fd.spectra.length (env.mem (mc + 1) - env.mem mc)).2.1
          fd.spectra.length) ∧
      (fd.spectra.length ≤ 500 → pcr = pc + 1 ∧ w = fd.spectra.length) := by
  have hn : 0 < fd.spectra.length := List.length_pos.mpr hne
  have hL : 0 < min (chunkCfg fd.spectra.length
      (env.mem (mc + 1) - env.mem mc)).2.1 fd.spectra.length := by
    have := chunkCfg_snd_pos fd.spectra.length (env.mem (mc + 1) - env.mem mc) hn
    omega
  obtain ⟨w, pcr, mcr, heq, hw0, hwlim, hwpf, hwfirst⟩ :=
    chunkLoop_nofail fd.spectra env.pause
      (chunkCfg fd.spectra.length (env.mem (mc + 1) - env.mem mc)).1
      (min (chunkCfg fd.spectra.length (env.mem (mc + 1) - env.mem mc)).2.1
        fd.spectra.length)
      (chunkCfg_fst_pos _ _ hn) (min_le_right _ _)
      (min (chunkCfg fd.spectra.length (env.mem (mc + 1) - env.mem mc)).2.1
        fd.spectra.length + 1) 0 (pc + 1) (mc + 2) (Nat.zero_le _) (by omega)
  have hw1 : 1 ≤ w := by
    have h1 := hwfirst hL (by omega)
    have h2 := chunkCfg_fst_pos fd.spectra.length (env.mem (mc + 1) - env.mem mc) hn
    omega
  refine ⟨w, pcr, mcr + 1, ?_, hw1, hwlim, hwpf, ?_⟩
  · simp only [process_single_file_streaming_safe, hpc, Bool.false_eq_true,
      if_false, hparse, reduceCtorEq, hne, hfail, heq, Nat.sub_zero,
      List.drop_zero, List.append_assoc]
  · intro hsmall
    have hcfg := chunkCfg_small fd.spectra.length
      (env.mem (mc + 1) - env.mem mc) (by omega)
    rw [hcfg] at heq
    simp only [Nat.min_self] at heq
    obtain ⟨mcr2, heq2⟩ := chunkLoop_single fd.spectra env.pause
      fd.spectra.length fd.spectra.length (fd.spectra.length + 1) (pc + 1) (mc + 2)
      (le_refl _) (le_refl _) hn (by omega)
    rw [heq2] at heq
    have hinj := ChunkOut.mk.injEq _ _ _ _ _ _ _ _ _ _ ▸ heq
    constructor
    · have : pc + 1 = pcr := by
        have := congrArg ChunkOut.pc heq
        simpa using this
      omega
    · have hmin : min (chunkCfg fd.spectra.length
          (env.mem (mc + 1) - env.mem mc)).2.1 fd.spectra.length =
          fd.spectra.length := by
        rw [hcfg]; simp
      have := congrArg ChunkOut.written heq
      simp at this
      omega

/-- Characterization of `process_single_file_streaming_safe` when the
write of record `k` raises (monitor never pausing, no record-cap memory
pressure): the function returns 0 and leaves a half-written dataset entry
— the entry header, records `0..k-1`, and the partial bytes of record
`k`, with no closing tokens. -/
theorem processFile_fail (fd : FileData) (env : MemEnv) (pc mc : Nat)
    (first : Bool) (k : Nat) (hparse : fd.parseOk = true)
    (hfail : fd.failAt = some k) (hk : k < fd.spectra.length)
    (hpause : ∀ p, env.pause p = false)
    (hnc : ¬ 200 < env.mem (mc + 1) - env.mem mc) :
    ∃ pcr mcr,
      process_single_file_streaming_safe fd first env pc mc =
        ⟨(if first then ([] : List Tok) else [Tok.comma]) ++
          [Tok.dsOpen, Tok.spectraCount fd.spectra.length, Tok.spectraOpen] ++
          (recsToksFrom 0 (fd.spectra.take k) ++
            (if 0 < k then [Tok.recSep, Tok.recTrunc] else [Tok.recTrunc])),
         0, pcr, mcr, none⟩ := by
  have hn : 0 < fd.spectra.length := by omega
  have hne : ¬ fd.spectra = [] := by
    intro h; rw [h] at hn; simp at hn
  obtain ⟨hc1, hc2⟩ := chunkCfg_no_cap fd.spectra.length
    (env.mem (mc + 1) - env.mem mc) hnc
  have hmin : min (chunkCfg fd.spectra.length
      (env.mem (mc + 1) - env.mem mc)).2.1 fd.spectra.length =
      fd.spectra.length := by
    rw [hc1]; simp
  obtain ⟨pcr, mcr, heq⟩ := chunkLoop_fail fd.spectra env.pause
    (chunkCfg fd.spectra.length (env.mem (mc + 1) - env.mem mc)).1
    (min (chunkCfg fd.spectra.length (env.mem (mc + 1) - env.mem mc)).2.1
      fd.spectra.length) k
    (chunkCfg_fst_pos _ _ hn) (min_le_right _ _) hpause
    (min (chunkCfg fd.spectra.length (env.mem (mc + 1) - env.mem mc)).2.1
      fd.spectra.length + 1) 0 (pc + 1) (mc + 2)
    (Nat.zero_le _) (by omega) (by omega)
  refine ⟨pcr, mcr, ?_⟩
  rw [hmin] at heq
  simp only [process_single_file_streaming_safe, hpause pc, Bool.false_eq_true,
    if_false, hparse, reduceCtorEq, hne, hfail, hmin, heq, Nat.sub_zero,
    List.drop_zero, if_true, hc2, List.append_assoc]

/-- On the three zero-write paths — pre-load pause, load/structure
failure, empty record list — the file contributes no bytes and the
function returns 0. -/
theorem processFile_zero (fd : FileData) (first : Bool) (env : MemEnv)
    (pc mc : Nat)
    (h : env.pause pc = true ∨ fd.parseOk = false ∨ fd.spectra = []) :
    (process_single_file_streaming_safe fd first env pc mc).toks = [] ∧
    (process_single_file_streaming_safe fd first env pc mc).count = 0 := by
  unfold process_single_file_streaming_safe
  rcases h with h | h | h
  · simp [h]
  · rcases hp : env.pause pc <;> simp [h]
  · rcases hp : env.pause pc <;> rcases hq : fd.parseOk <;> simp [h, hq]

/-- A record tail (separator-record pairs) keeps the DFA in the
"after a record" state. -/
theorem vfold_recs_tail (l : List Nat) : ∀ w, 0 < w →
    List.foldl vstep VSt.s5 (recsToksFrom w l) = VSt.s5 := by
  induction l with
  | nil => intro w hw; simp [recsToksFrom]
  | cons a t ih =>
    intro w hw
    simp only [recsToksFrom, if_pos hw, List.append_assoc, List.cons_append,
      List.nil_append, List.foldl_cons]
    exact ih (w + 1) (by omega)

/-- A complete dataset entry moves the DFA from "expecting an entry"
(after the header or after a separating comma) to "after an entry". -/
theorem vfold_entry (m : Nat) (l : List Nat) :
    ∀ s, s = VSt.s1 ∨ s = VSt.s8 →
    List.foldl vstep s ([Tok.dsOpen, Tok.spectraCount m, Tok.spectraOpen] ++
      (recsToksFrom 0 l ++ [Tok.dsClose])) = VSt.s7 := by
  intro s hs
  have h4 : List.foldl vstep s [Tok.dsOpen, Tok.spectraCount m, Tok.spectraOpen] =
      VSt.s4 := by
    rcases hs with h | h <;> subst h <;> rfl
  rw [List.foldl_append, h4, List.foldl_append]
  cases l with
  | nil => simp [recsToksFrom, vstep]
  | cons a t =>
    simp only [recsToksFrom, Nat.lt_irrefl, if_neg, List.nil_append,
      List.cons_append, List.foldl_cons, if_false]
    rw [show vstep VSt.s4 (Tok.record a) = VSt.s5 from rfl,
      vfold_recs_tail t 1 (by omega)]
    rfl

/-- Every file step of a batch either writes nothing and returns 0, or
(when at least one record was written) moves the grammar state from
"expecting an entry" to "after a complete entry". -/
theorem processFile_step (fd : FileData) (first : Bool) (env : MemEnv)
    (pc mc : Nat) (hfail : fd.failAt = none) :
    ((process_single_file_streaming_safe fd first env pc mc).count = 0 ∧
      (process_single_file_streaming_safe fd first env pc mc).toks = []) ∨
    (0 < (process_single_file_streaming_safe fd first env pc mc).count ∧
      List.foldl vstep (if first then VSt.s1 else VSt.s7)
        (process_single_file_streaming_safe fd first env pc mc).toks = VSt.s7) := by
  by_cases hz : env.pause pc = true ∨ fd.parseOk = false ∨ fd.spectra = []
  · obtain ⟨h1, h2⟩ := processFile_zero fd first env pc mc hz
    exact Or.inl ⟨h2, h1⟩
  · push_neg at hz
    obtain ⟨hp, hq, hr⟩ := hz
    have hp' : env.pause pc = false := by
      rcases h : env.pause pc
      · rfl
      · exact absurd h hp
    have hq' : fd.parseOk = true := by
      rcases h : fd.parseOk
      · exact absurd h hq
      · rfl
    obtain ⟨w, pcr, mcr, heq, hw1, _, _, _⟩ :=
      processFile_nofail fd env pc mc first hq' hr hfail hp'
    refine Or.inr ⟨by rw [heq]; exact hw1, ?_⟩
    rw [heq]
    cases first with
    | true =>
      have := vfold_entry
        (min (chunkCfg fd.spectra.length (env.mem (mc + 1) - env.mem mc)).2.1
          fd.spectra.length) (fd.spectra.take w) VSt.s1 (Or.inl rfl)
      simpa [List.append_assoc] using this
    | false =>
      have := vfold_entry
        (min (chunkCfg fd.spectra.length (env.mem (mc + 1) - env.mem mc)).2.1
          fd.spectra.length) (fd.spectra.take w) VSt.s8 (Or.inr rfl)
      simpa [List.append_assoc, show vstep VSt.s7 Tok.comma = VSt.s8 from rfl]
        using this

/-- The file loop of a batch, started in grammar state "after header"
(`first = true`) or "after an entry", always ends in one of those two
states when no record write fails: every file either appends nothing or
appends one complete (comma-separated) entry. -/
theorem batchLoop_vfold (env : MemEnv) :
    ∀ (files : List FileData) (first : Bool) (pc mc : Nat),
      (∀ f ∈ files, f.failAt = none) →
      List.foldl vstep (if first then VSt.s1 else VSt.s7)
        (batchLoop env files first pc mc).toks = VSt.s1 ∨
      List.foldl vstep (if first then VSt.s1 else VSt.s7)
        (batchLoop env files first pc mc).toks = VSt.s7 := by
  intro files
  induction files with
  | nil =>
    intro first pc mc _
    cases first <;> simp [batchLoop]
  | cons f rest ih =>
    intro first pc mc h
    by_cases hp : env.pause pc = true
    · cases first <;> simp [batchLoop, hp]
    · have hp' : env.pause pc = false := by
        cases hq : env.pause pc
        · rfl
        · exact absurd hq hp
      have hrest : ∀ g ∈ rest, g.failAt = none := fun g hg => h g (by simp [hg])
      rcases processFile_step f first env (pc + 1) mc (h f (by simp)) with
        ⟨hc, ht⟩ | ⟨hc, ht⟩
      · simp only [batchLoop, hp', Bool.false_eq_true, if_false, ht, hc,
          Nat.lt_irrefl, List.nil_append]
        exact ih first _ _ hrest
      · simp only [batchLoop, hp', Bool.false_eq_true, if_false, if_pos hc,
          List.foldl_append, ht]
        simpa using ih false _ _ hrest

/-- C1, amended part: for a batch whose files have no mid-write failure
(each file either completes its entry or writes nothing), the batch file
— whatever the pause oracle does, and including corrupt or empty files —
is finalized with its footer and is syntactically valid JSON. -/
theorem c1_theorem (files : List FileData) (env : MemEnv)
    (h : ∀ f ∈ files, f.failAt = none) :
    ∃ ts, (process_single_batch_threaded files env false).toks = some ts ∧
      validBatch ts ∧ ∃ pre, ts = pre ++ [Tok.batchFooter] := by
  refine ⟨Tok.batchHeader :: ((batchLoop env files true 0 0).toks ++
    [Tok.batchFooter]), rfl, ?_, Tok.batchHeader :: (batchLoop env files true 0 0).toks,
    by simp⟩
  unfold validBatch
  rw [List.foldl_cons, show vstep VSt.s0 Tok.batchHeader = VSt.s1 from rfl,
    List.foldl_append]
  rcases batchLoop_vfold env files true 0 0 h with hf | hf
  · simp only [if_true] at hf
    rw [hf]
    rfl
  · simp only [if_true] at hf
    rw [hf]
    rfl

/-- C1, counterexample: a per-file exception striking part-way through a
dataset entry (here: record 1 of the only file) leaves the finalized,
footer-terminated batch file syntactically invalid. -/
theorem c1_counterexample :
    (process_single_batch_threaded [⟨true, [7, 8], some 1⟩]
        ⟨fun _ => false, fun _ => 0⟩ false).toks =
      some [Tok.batchHeader, Tok.dsOpen, Tok.spectraCount 2, Tok.spectraOpen,
        Tok.record 7, Tok.recSep, Tok.recTrunc, Tok.batchFooter] ∧
    ¬ validBatch [Tok.batchHeader, Tok.dsOpen, Tok.spectraCount 2, Tok.spectraOpen,
        Tok.record 7, Tok.recSep, Tok.recTrunc, Tok.batchFooter] := by
  constructor
  · rfl
  · decide

/-- C1 witness: a concrete clean batch (one two-record file) to which the
amended theorem applies. -/
theorem c1_witness :
    (∀ f ∈ [(⟨true, [1, 2], none⟩ : FileData)], f.failAt = none) ∧
    ∃ ts, (process_single_batch_threaded [⟨true, [1, 2], none⟩]
        ⟨fun _ => false, fun _ => 0⟩ false).toks = some ts ∧
      validBatch ts ∧ ∃ pre, ts = pre ++ [Tok.batchFooter] :=
  ⟨by decide, c1_theorem [⟨true, [1, 2], none⟩] ⟨fun _ => false, fun _ => 0⟩
    (by decide)⟩

/-- Every batch that begins passed the destroyed- and cancellation-checks
(lines 3196-3203) at its start time: both flags read false there. -/
theorem workerLoop_batchStarts (env : WorkerEnv) (files : List FileData)
    (fpb : Nat) :
    ∀ (bs : List Nat) (t : Nat) (p : Progress) (x : Nat × Nat),
      x ∈ (workerLoop env files fpb bs t p).batchStarts →
      flagAt env.cancelAt x.2 = false ∧ flagAt env.destroyedAt x.2 = false := by
  intro bs
  induction bs with
  | nil => intro t p x hx; simp [workerLoop] at hx
  | cons b bs ih =>
    intro t p x hx
    by_cases hd : flagAt env.destroyedAt t = true
    · simp [workerLoop, hd] at hx
    · have hd' : flagAt env.destroyedAt t = false := by
        cases hq : flagAt env.destroyedAt t
        · rfl
        · exact absurd hq hd
      by_cases hc : flagAt env.cancelAt t = true
      · simp [workerLoop, hd', hc] at hx
      · have hc' : flagAt env.cancelAt t = false := by
          cases hq : flagAt env.cancelAt t
          · rfl
          · exact absurd hq hc
        simp only [workerLoop, hd', Bool.false_eq_true, if_false, hc',
          List.mem_cons] at hx
        rcases hx with hx | hx
        · subst hx
          exact ⟨hc', hd'⟩
        · exact ih _ _ x hx

/-- C2, amended: cancellation (and destruction) are checked once per
batch, before the batch begins — every batch recorded as started saw both
flags false at its start time; within a batch no file-level cancellation
check exists (see the counterexample). -/
theorem c2_theorem (env : WorkerEnv) (files : List FileData) (fpb : Nat)
    (x : Nat × Nat)
    (hx : x ∈ (batch_processing_worker env files fpb).batchStarts) :
    flagAt env.cancelAt x.2 = false ∧ flagAt env.destroyedAt x.2 = false :=
  workerLoop_batchStarts env files fpb _ 0 _ x hx

/-- C2, counterexample: with the cancellation flag set at time 1 (after
file 0 of batch 0, before file 1), file 1 of the same batch still begins
processing — the flag is true at its start time, refuting the per-file
cancellation check. -/
theorem c2_counterexample :
    (0, 1, 1) ∈ (batch_processing_worker
      ⟨fun _ => ⟨fun _ => false, fun _ => 0⟩, fun _ => false, some 1, none⟩
      [⟨false, [], none⟩, ⟨false, [], none⟩] 2).fileStarts ∧
    flagAt (some 1) 1 = true := by
  constructor
  · decide
  · decide

/-- C2 witness: a run with cancellation set at time 5 whose only batch
start (batch 0 at time 0) satisfies the amended theorem. -/
theorem c2_witness :
    ((0, 0) ∈ (batch_processing_worker
      ⟨fun _ => ⟨fun _ => false, fun _ => 0⟩, fun _ => false, some 5, none⟩
      [⟨false, [], none⟩] 1).batchStarts) ∧
    (flagAt (some 5) 0 = false ∧ flagAt (none : Option Nat) 0 = false) :=
  ⟨by decide, c2_theorem
    ⟨fun _ => ⟨fun _ => false, fun _ => 0⟩, fun _ => false, some 5, none⟩
    [⟨false, [], none⟩] 1 (0, 0) (by decide)⟩

/-- If a batch's file loop counted no dataset, it also counted no
spectra (`total_spectra` only grows together with `datasets_processed`,
lines 3345-3347). -/
theorem batchLoop_ds_zero (env : MemEnv) :
    ∀ (files : List FileData) (first : Bool) (pc mc : Nat),
      (batchLoop env files first pc mc).ds = 0 →
      (batchLoop env files first pc mc).sp = 0 := by
  intro files
  induction files with
  | nil => intro first pc mc _; rfl
  | cons f rest ih =>
    intro first pc mc h
    by_cases hp : env.pause pc = true
    · simp [batchLoop, hp]
    · have hp' : env.pause pc = false := by
        cases hq : env.pause pc
        · rfl
        · exact absurd hq hp
      simp only [batchLoop, hp', Bool.false_eq_true, if_false] at h ⊢
      by_cases hc : 0 < (process_single_file_streaming_safe f first env (pc + 1)
          mc).count
      · rw [if_pos hc] at h
        omega
      · rw [if_neg hc] at h
        simp only [Nat.zero_add] at h
        have := ih (if 0 < (process_single_file_streaming_safe f first env (pc + 1)
            mc).count then false else first)
          (process_single_file_streaming_safe f first env (pc + 1) mc).pc
          (process_single_file_streaming_safe f first env (pc + 1) mc).mc h
        omega

/-- With neither cancellation nor destruction, the worker attempts every
batch in order: the run completes, no error is recorded, the outputs are
exactly the per-batch results in order (each depending only on its own
batch), `successful_batches` counts the batches that returned a positive
dataset count, and the totals are the per-batch sums. -/
theorem workerLoop_no_cancel (env : WorkerEnv) (files : List FileData)
    (fpb : Nat) (hc : env.cancelAt = none) (hd : env.destroyedAt = none) :
    ∀ (bs : List Nat) (t : Nat) (p : Progress),
      (workerLoop env files fpb bs t p).progress.completed = true ∧
      (workerLoop env files fpb bs t p).progress.error = p.error ∧
      (workerLoop env files fpb bs t p).outputs = bs.map (fun b =>
        (process_single_batch_threaded (batchSlice files fpb b) (env.menv b)
          (env.ioFail b)).toks) ∧
      (workerLoop env files fpb bs t p).progress.successful_batches =
        p.successful_batches + (bs.filter (fun b =>
          decide (0 < (process_single_batch_threaded (batchSlice files fpb b)
            (env.menv b) (env.ioFail b)).datasets))).length ∧
      (workerLoop env files fpb bs t p).progress.total_datasets =
        p.total_datasets + (bs.map (fun b =>
          (process_single_batch_threaded (batchSlice files fpb b) (env.menv b)
            (env.ioFail b)).datasets)).sum ∧
      (workerLoop env files fpb bs t p).progress.total_spectra =
        p.total_spectra + (bs.map (fun b =>
          (process_single_batch_threaded (batchSlice files fpb b) (env.menv b)
            (env.ioFail b)).spectra)).sum := by
  intro bs
  induction bs with
  | nil =>
    intro t p
    simp [workerLoop]
  | cons b bs ih =>
    intro t p
    simp only [workerLoop, hc, hd, flagAt, Bool.false_eq_true, if_false,
      List.map_cons, List.filter_cons, List.sum_cons]
    by_cases hds : 0 < (process_single_batch_threaded (batchSlice files fpb b)
        (env.menv b) (env.ioFail b)).datasets
    · simp only [if_pos hds, decide_eq_true_eq, hds, if_true, List.length_cons]
      obtain ⟨h1, h2, h3, h4, h5, h6⟩ := ih
        (t + (process_single_batch_threaded (batchSlice files fpb b) (env.menv b)
          (env.ioFail b)).started) _
      refine ⟨h1, by rw [h2], by rw [h3], ?_, ?_, ?_⟩
      · rw [h4]; simp; omega
      · rw [h5]; simp; omega
      · rw [h6]; simp; omega
    · have hz : (process_single_batch_threaded (batchSlice files fpb b)
          (env.menv b) (env.ioFail b)).datasets = 0 := by omega
      have hzs : (process_single_batch_threaded (batchSlice files fpb b)
          (env.menv b) (env.ioFail b)).spectra = 0 := by
        by_cases hio : env.ioFail b = true
        · simp [process_single_batch_threaded, hio]
        · have hio' : env.ioFail b = false := by
            cases hq : env.ioFail b
            · rfl
            · exact absurd hq hio
          simp only [process_single_batch_threaded, hio', Bool.false_eq_true,
            if_false] at hz ⊢
          exact batchLoop_ds_zero (env.menv b) (batchSlice files fpb b) true 0 0 hz
      simp only [if_neg hds, decide_eq_true_eq, hds, if_false]
      obtain ⟨h1, h2, h3, h4, h5, h6⟩ := ih
        (t + (process_single_batch_threaded (batchSlice files fpb b) (env.menv b)
          (env.ioFail b)).started) _
      refine ⟨h1, by rw [h2], by rw [h3], ?_, ?_, ?_⟩
      · rw [h4]
      · rw [h5]; simp [hz]
      · rw [h6]; simp [hzs]

/-- C6: an unhandled error while processing one batch (modelled by
`ioFail`, the `open`/write failure caught at lines 3363-3365) leaves that
batch with no output file and zero counts — so it is not counted in
`successful_batches` — and the worker still attempts every batch in
order, completes without error, and the outputs of all other batches are
exactly what their own processing produces (earlier valid batch files are
never discarded). -/
theorem c6_theorem (env : WorkerEnv) (files : List FileData) (fpb : Nat)
    (hc : env.cancelAt = none) (hd : env.destroyedAt = none) :
    (batch_processing_worker env files fpb).progress.completed = true ∧
    (batch_processing_worker env files fpb).progress.error = none ∧
    (batch_processing_worker env files fpb).outputs =
      (List.range (totalBatches files.length fpb)).map (fun b =>
        (process_single_batch_threaded (batchSlice files fpb b) (env.menv b)
          (env.ioFail b)).toks) ∧
    (∀ b, env.ioFail b = true →
      (process_single_batch_threaded (batchSlice files fpb b) (env.menv b)
        (env.ioFail b)).toks = none ∧
      (process_single_batch_threaded (batchSlice files fpb b) (env.menv b)
        (env.ioFail b)).datasets = 0) ∧
    (batch_processing_worker env files fpb).progress.successful_batches =
      ((List.range (totalBatches files.length fpb)).filter (fun b =>
        decide (0 < (process_single_batch_threaded (batchSlice files fpb b)
          (env.menv b) (env.ioFail b)).datasets))).length ∧
    (batch_processing_worker env files fpb).progress.total_datasets =
      ((List.range (totalBatches files.length fpb)).map (fun b =>
        (process_single_batch_threaded (batchSlice files fpb b) (env.menv b)
          (env.ioFail b)).datasets)).sum := by
  obtain ⟨h1, h2, h3, h4, h5, _⟩ := workerLoop_no_cancel env files fpb hc hd
    (List.range (totalBatches files.length fpb)) 0
    { current_batch := 0, total_batches := totalBatches files.length fpb,
      current_file := 0, current_batch_files := 0, successful_batches := 0,
      total_datasets := 0, total_spectra := 0, completed := false, error := none }
  refine ⟨h1, h2, h3, ?_, by simpa using h4, by simpa using h5⟩
  intro b hb
  simp [process_single_batch_threaded, hb]

/-- C6 witness: two one-file batches where batch 0's output open fails;
the run still completes with batch 1 succeeding. -/
theorem c6_witness :
    ((⟨fun _ => ⟨fun _ => false, fun _ => 0⟩, fun b => decide (b = 0), none, none⟩ :
        WorkerEnv).cancelAt = none ∧
      (⟨fun _ => ⟨fun _ => false, fun _ => 0⟩, fun b => decide (b = 0), none,
        none⟩ : WorkerEnv).destroyedAt = none) ∧
    (batch_processing_worker
      ⟨fun _ => ⟨fun _ => false, fun _ => 0⟩, fun b => decide (b = 0), none, none⟩
      [⟨true, [3], none⟩, ⟨true, [4], none⟩] 1).progress.completed = true :=
  ⟨⟨rfl, rfl⟩,
    (c6_theorem
      ⟨fun _ => ⟨fun _ => false, fun _ => 0⟩, fun b => decide (b = 0), none, none⟩
      [⟨true, [3], none⟩, ⟨true, [4], none⟩] 1 rfl rfl).1⟩

/-! ## Planner lemmas -/

theorem sum_map_div_cast (l : List Nat) (c : ℚ) :
    (l.map fun (s : Nat) => (s : ℚ) / c).sum = (l.sum : ℚ) / c := by
  induction l with
  | nil => simp
  | cons a t ih =>
    simp only [List.map_cons, List.sum_cons, ih, List.sum_cons]
    push_cast
    rw [add_div]

theorem files_per_batch_pos (sizes : List Nat) (avail : Nat) :
    0 < files_per_batch sizes avail := by
  simp only [files_per_batch]
  exact lt_of_lt_of_le Nat.one_pos (le_max_left _ _)

/-- The integer batch count `(n + f - 1) / f` is the ceiling of `n / f`:
the unique `T` with `n ≤ f * T < n + f`. -/
theorem totalBatches_ceil (n f : Nat) (hf : 0 < f) :
    n ≤ f * totalBatches n f ∧ f * totalBatches n f < n + f := by
  unfold totalBatches
  have h1 := Nat.div_add_mod (n + f - 1) f
  have h2 := Nat.mod_lt (n + f - 1) hf
  generalize hq : (n + f - 1) / f = q at h1 ⊢
  generalize hr : (n + f - 1) % f = r at h1 h2
  generalize hm : f * q = m at h1 ⊢
  omega

/-- The planned batches are contiguous ordered slices that partition the
input list. -/
theorem bind_batchSlice {α : Type} (f : Nat) (hf : 0 < f) :
    ∀ (n : Nat) (l : List α), l.length = n →
      (List.range (totalBatches l.length f)).bind (fun b => batchSlice l f b) =
        l := by
  intro n
  induction n using Nat.strong_induction_on with
  | _ n ih =>
    intro l hl
    cases l with
    | nil =>
      have h0 : totalBatches 0 f = 0 := by
        unfold totalBatches
        exact Nat.div_eq_of_lt (by omega)
      simp [h0]
    | cons a t =>
      have hTB : totalBatches (a :: t).length f = t.length / f + 1 := by
        unfold totalBatches
        simp only [List.length_cons]
        rw [show t.length + 1 + f - 1 = t.length + f from by omega,
          Nat.add_div_right _ hf]
      have hshift : ∀ b, batchSlice (a :: t) f (b + 1) =
          batchSlice ((a :: t).drop f) f b := by
        intro b
        unfold batchSlice
        rw [List.drop_drop, show f + b * f = (b + 1) * f from by
          rw [Nat.succ_mul]; omega]
      have hlen : ((a :: t).drop f).length = t.length + 1 - f := by
        simp
      have hTB2 : totalBatches ((a :: t).drop f).length f = t.length / f := by
        rw [hlen]
        unfold totalBatches
        rcases le_or_lt f (t.length + 1) with hle | hlt
        · rw [show t.length + 1 - f + f - 1 = t.length from by omega]
        · rw [show t.length + 1 - f = 0 from by omega,
            Nat.div_eq_of_lt (by omega), Nat.div_eq_of_lt (by omega)]
      have hn1 : t.length + 1 = n := by simpa using hl
      have hrec := ih (t.length + 1 - f) (by omega) ((a :: t).drop f) hlen
      rw [hTB2] at hrec
      rw [hTB, List.range_succ_eq_map,
        show ((0 :: (List.range (t.length / f)).map Nat.succ).bind
            fun b => batchSlice (a :: t) f b) =
          batchSlice (a :: t) f 0 ++
            (((List.range (t.length / f)).map Nat.succ).bind
              fun b => batchSlice (a :: t) f b) from rfl]
      have hmapbind : (((List.range (t.length / f)).map Nat.succ).bind
          fun b => batchSlice (a :: t) f b) =
          (List.range (t.length / f)).bind
            fun b => batchSlice ((a :: t).drop f) f b := by
        have h1 : (((List.range (t.length / f)).map Nat.succ).bind
            fun b => batchSlice (a :: t) f b) =
            (List.range (t.length / f)).bind
              fun b => batchSlice (a :: t) f (Nat.succ b) :=
          List.flatMap_map _ _ _
        rw [h1]
        simp only [Nat.succ_eq_add_one, hshift]
      rw [hmapbind, hrec]
      unfold batchSlice
      simp

/-- C3: for a non-empty input set with positive total size, the computed
`files_per_batch` equals the spec formula
`max(1, floor(safe_budget_bytes / (avg_file_bytes * 2.5)))` with the safe
budget 20% of available memory (exact rational arithmetic), the batch
count is the ceiling of `files / files_per_batch`, and the batches are
contiguous ordered slices partitioning the input list. -/
theorem c3_theorem (sizes : List Nat) (avail : Nat) (files : List FileData)
    (hne : sizes ≠ []) (hpos : 0 < sizes.sum) :
    files_per_batch sizes avail = files_per_batch_spec sizes avail ∧
    files.length ≤ files_per_batch sizes avail *
      totalBatches files.length (files_per_batch sizes avail) ∧
    files_per_batch sizes avail *
      totalBatches files.length (files_per_batch sizes avail) <
      files.length + files_per_batch sizes avail ∧
    (List.range (totalBatches files.length (files_per_batch sizes avail))).bind
      (fun b => batchSlice files (files_per_batch sizes avail) b) = files := by
  have hf := files_per_batch_pos sizes avail
  have hceil := totalBatches_ceil files.length (files_per_batch sizes avail) hf
  refine ⟨?_, hceil.1, hceil.2, bind_batchSlice _ hf files.length files rfl⟩
  have hn : (sizes.length : ℚ) ≠ 0 := by
    have h0 : sizes.length ≠ 0 := by
      intro h
      exact hne (List.length_eq_zero.mp h)
    exact_mod_cast h0
  have hS : (sizes.sum : ℚ) ≠ 0 := by
    have h0 : sizes.sum ≠ 0 := by omega
    exact_mod_cast h0
  have harg : (avail : ℚ) / (1024 * 1024 * 1024) * (1 / 5) * 1024 /
      ((sizes.sum : ℚ) / (1024 * 1024) / (sizes.length : ℚ) * (5 / 2)) =
      (avail : ℚ) * (1 / 5) / ((sizes.sum : ℚ) / (sizes.length : ℚ) * (5 / 2)) := by
    field_simp
    ring
  simp only [files_per_batch, files_per_batch_spec, sum_map_div_cast, harg]

/-- C3 witness: two files of 200 and 300 bytes with 1 GB available. -/
theorem c3_witness :
    (([200, 300] : List Nat) ≠ [] ∧ 0 < ([200, 300] : List Nat).sum) ∧
    files_per_batch [200, 300] 1073741824 =
      files_per_batch_spec [200, 300] 1073741824 :=
  ⟨⟨by decide, by decide⟩,
    (c3_theorem [200, 300] 1073741824 [] (by decide) (by decide)).1⟩

/-- C4, counterexample: with input files of sizes [10240, 0, 10240] the
directory scan (line 3384, `getsize > 100`) drops the 0-byte file before
planning, so only 2 files are planned; with `files_per_batch = 2` the
plan is a single batch, not the claimed 2, and no planned file has size
0 (so the 0-byte file is not "included in its batch"). -/
theorem c4_counterexample :
    (scan_spectra_files
        [⟨true, 10240, ⟨true, [11], none⟩⟩, ⟨true, 0, ⟨true, [], none⟩⟩,
         ⟨true, 10240, ⟨true, [12], none⟩⟩]).length = 2 ∧
    (∀ c ∈ scan_spectra_files
        [⟨true, 10240, ⟨true, [11], none⟩⟩, ⟨true, 0, ⟨true, [], none⟩⟩,
         ⟨true, 10240, ⟨true, [12], none⟩⟩], 100 < c.size) ∧
    totalBatches 2 2 = 1 := by
  refine ⟨rfl, by decide, rfl⟩

/-- C4, amended: the 0-byte file is excluded at scan time, the remaining
two valid files form one batch of two (with `files_per_batch = 2`), both
merge successfully, and the final summary has `total_datasets = 2`. -/
theorem c4_theorem :
    (batch_processing_worker
      ⟨fun _ => ⟨fun _ => false, fun _ => 0⟩, fun _ => false, none, none⟩
      ((scan_spectra_files
        [⟨true, 10240, ⟨true, [11], none⟩⟩, ⟨true, 0, ⟨true, [], none⟩⟩,
         ⟨true, 10240, ⟨true, [12], none⟩⟩]).map Cand.content) 2).outputs.length
      = 1 ∧
    (batch_processing_worker
      ⟨fun _ => ⟨fun _ => false, fun _ => 0⟩, fun _ => false, none, none⟩
      ((scan_spectra_files
        [⟨true, 10240, ⟨true, [11], none⟩⟩, ⟨true, 0, ⟨true, [], none⟩⟩,
         ⟨true, 10240, ⟨true, [12], none⟩⟩]).map Cand.content)
      2).progress.total_datasets = 2 ∧
    (batch_processing_worker
      ⟨fun _ => ⟨fun _ => false, fun _ => 0⟩, fun _ => false, none, none⟩
      ((scan_spectra_files
        [⟨true, 10240, ⟨true, [11], none⟩⟩, ⟨true, 0, ⟨true, [], none⟩⟩,
         ⟨true, 10240, ⟨true, [12], none⟩⟩]).map Cand.content)
      2).progress.completed = true ∧
    (batch_processing_worker
      ⟨fun _ => ⟨fun _ => false, fun _ => 0⟩, fun _ => false, none, none⟩
      ((scan_spectra_files
        [⟨true, 10240, ⟨true, [11], none⟩⟩, ⟨true, 0, ⟨true, [], none⟩⟩,
         ⟨true, 10240, ⟨true, [12], none⟩⟩]).map Cand.content)
      2).progress.error = none := by
  refine ⟨rfl, rfl, rfl, rfl⟩

/-- C5, amended: a record whose serialization raises is not skipped — the
exception aborts the whole file: the function returns 0, the records
after the failing one are never written, and the half-written entry
(without its closing tokens) remains in the output. -/
theorem c5_theorem (fd : FileData) (env : MemEnv) (pc mc : Nat) (first : Bool)
    (k : Nat) (hparse : fd.parseOk = true) (hfail : fd.failAt = some k)
    (hk : k < fd.spectra.length) (hpause : ∀ p, env.pause p = false)
    (hnc : ¬ (200 : ℚ) < env.mem (mc + 1) - env.mem mc) :
    (process_single_file_streaming_safe fd first env pc mc).count = 0 ∧
    (process_single_file_streaming_safe fd first env pc mc).toks =
      (if first then ([] : List Tok) else [Tok.comma]) ++
      [Tok.dsOpen, Tok.spectraCount fd.spectra.length, Tok.spectraOpen] ++
      (recsToksFrom 0 (fd.spectra.take k) ++
        (if 0 < k then [Tok.recSep, Tok.recTrunc] else [Tok.recTrunc])) ∧
    Tok.dsClose ∉ (process_single_file_streaming_safe fd first env pc mc).toks := by
  obtain ⟨pcr, mcr, heq⟩ :=
    processFile_fail fd env pc mc first k hparse hfail hk hpause hnc
  refine ⟨by rw [heq], by rw [heq], ?_⟩
  rw [heq]
  intro hmem
  simp only [List.mem_append] at hmem
  rcases hmem with (hA | hB) | hC | hD
  · cases first <;> simp_all
  · simp at hB
  · rcases mem_recsToksFrom hC with h | ⟨r, h⟩ <;> simp at h
  · rcases Nat.eq_zero_or_pos k with hk0 | hk0
    · rw [if_neg (by omega)] at hD
      simp at hD
    · rw [if_pos hk0] at hD
      simp at hD

/-- C5, counterexample: in the file [4, 5, 6] whose record 1 fails to
serialize, record 6 is never written and the function returns 0 — the
remaining records are not "still written" and the count does not reflect
the records emitted before the failure. -/
theorem c5_counterexample :
    (process_single_file_streaming_safe ⟨true, [4, 5, 6], some 1⟩ true
      ⟨fun _ => false, fun _ => 0⟩ 0 0).count = 0 ∧
    Tok.record 6 ∉ (process_single_file_streaming_safe ⟨true, [4, 5, 6], some 1⟩
      true ⟨fun _ => false, fun _ => 0⟩ 0 0).toks := by
  exact ⟨rfl, by decide⟩

/-- C5 witness: the amended theorem applied to the concrete failing
file. -/
theorem c5_witness :
    ((1 : Nat) < ([4, 5, 6] : List Nat).length ∧
      ¬ (200 : ℚ) < (⟨fun _ => false, fun _ => 0⟩ : MemEnv).mem (0 + 1) -
        (⟨fun _ => false, fun _ => 0⟩ : MemEnv).mem 0) ∧
    ((process_single_file_streaming_safe ⟨true, [4, 5, 6], some 1⟩ true
        ⟨fun _ => false, fun _ => 0⟩ 0 0).count = 0 ∧
      Tok.dsClose ∉ (process_single_file_streaming_safe ⟨true, [4, 5, 6], some 1⟩
        true ⟨fun _ => false, fun _ => 0⟩ 0 0).toks) :=
  ⟨⟨by decide, by norm_num⟩,
    ⟨(c5_theorem ⟨true, [4, 5, 6], some 1⟩ ⟨fun _ => false, fun _ => 0⟩ 0 0 true 1
        rfl rfl (by decide) (fun _ => rfl) (by norm_num)).1,
      (c5_theorem ⟨true, [4, 5, 6], some 1⟩ ⟨fun _ => false, fun _ => 0⟩ 0 0 true 1
        rfl rfl (by decide) (fun _ => rfl) (by norm_num)).2.2⟩⟩

/-- C7, amended: the monitor is consulted before a chunk only once more
than 500 records have been written — in particular never during the
emission of a file of at most 500 records, which is always written in
full with exactly one monitor consultation (the pre-load check).  When
the loop does stop early, the entry is still closed (syntactically
valid) and the returned count is the number of records actually
written. -/
theorem c7_theorem (fd : FileData) (env : MemEnv) (pc mc : Nat) (first : Bool)
    (hparse : fd.parseOk = true) (hne : fd.spectra ≠ [])
    (hfail : fd.failAt = none) (hpc : env.pause pc = false) :
    (∃ L w, (process_single_file_streaming_safe fd first env pc mc).count = w ∧
      1 ≤ w ∧ w ≤ L ∧ L ≤ fd.spectra.length ∧
      (process_single_file_streaming_safe fd first env pc mc).toks =
        (if first then ([] : List Tok) else [Tok.comma]) ++
        [Tok.dsOpen, Tok.spectraCount L, Tok.spectraOpen] ++
        recsToksFrom 0 (fd.spectra.take w) ++ [Tok.dsClose]) ∧
    (fd.spectra.length ≤ 500 →
      (process_single_file_streaming_safe fd first env pc mc).pc = pc + 1 ∧
      (process_single_file_streaming_safe fd first env pc mc).count =
        fd.spectra.length) := by
  obtain ⟨w, pcr, mcr, heq, h1, h2, h3, h4⟩ :=
    processFile_nofail fd env pc mc first hparse hne hfail hpc
  refine ⟨⟨min (chunkCfg fd.spectra.length (env.mem (mc + 1) - env.mem mc)).2.1
    fd.spectra.length, w, by rw [heq], h1, h2, min_le_right _ _, by rw [heq]⟩, ?_⟩
  intro hsmall
  obtain ⟨hpcr, hw⟩ := h4 hsmall
  exact ⟨by rw [heq]; exact hpcr, by rw [heq]; exact hw⟩

/-- C7, counterexample: a 3-record file processed with a monitor that
requests a pause on every call after the first; all 3 records are still
written and the monitor is called exactly once (the pre-load check at
line 3036) — no check happens before the first (or any) chunk of
records, because the line-3096 short-circuit skips it while
`spectra_written ≤ 500`. -/
theorem c7_counterexample :
    (process_single_file_streaming_safe ⟨true, [5, 6, 7], none⟩ true
      ⟨fun p => decide (1 ≤ p), fun _ => 0⟩ 0 0).count = 3 ∧
    (process_single_file_streaming_safe ⟨true, [5, 6, 7], none⟩ true
      ⟨fun p => decide (1 ≤ p), fun _ => 0⟩ 0 0).pc = 1 := by
  exact ⟨rfl, rfl⟩

/-- C7 witness: the amended theorem applied to a concrete 2-record
file. -/
theorem c7_witness :
    (([5, 6] : List Nat) ≠ [] ∧
      (⟨fun _ => false, fun _ => 0⟩ : MemEnv).pause 0 = false) ∧
    (([5, 6] : List Nat).length ≤ 500 →
      (process_single_file_streaming_safe ⟨true, [5, 6], none⟩ true
        ⟨fun _ => false, fun _ => 0⟩ 0 0).pc = 0 + 1 ∧
      (process_single_file_streaming_safe ⟨true, [5, 6], none⟩ true
        ⟨fun _ => false, fun _ => 0⟩ 0 0).count = ([5, 6] : List Nat).length) :=
  ⟨⟨by decide, rfl⟩,
    (c7_theorem ⟨true, [5, 6], none⟩ ⟨fun _ => false, fun _ => 0⟩ 0 0 true rfl
      (by decide) rfl rfl).2⟩

/-- C8, amended: only a failure of the available-memory query forces a
pause — `should_pause_processing` returns true whenever
`psutil.virtual_memory().available` raises, regardless of the other
readings (which the getters coerce to 0 rather than failing safe). -/
theorem c8_theorem (criticalThreshold initialMb : ℚ) (rss percent : Option ℚ) :
    should_pause_processing criticalThreshold initialMb rss percent none =
      true := by
  simp only [should_pause_processing, get_available_memory_gb]
  split_ifs with h1 h2 h3 <;> try rfl
  exact absurd (by norm_num : (0 : ℚ) < 1 / 5) (by simpa using h2)

/-- C8, counterexample: when only the system-memory-percent query fails
(coerced to 0 by `get_system_memory_percent`), with 8 GB available and a
100 MB process, `should_pause_processing` returns false — a failed OS
memory query is not treated as Critical on every error path. -/
theorem c8_counterexample :
    should_pause_processing 60 100 (some (100 * 1024 * 1024)) none
      (some (8 * 1024 * 1024 * 1024)) = false := by
  norm_num [should_pause_processing, get_system_memory_percent,
    get_current_memory_mb, get_available_memory_gb]

/-- C9: when the record cap fires (more than 5000 records and a measured
memory increase above 200 MB), the file is still merged — capped to
exactly its first 2000 records in input order — the returned count and
the entry's `spectra_count` both record 2000, and the cap is surfaced by
the line-3078 log event. -/
theorem c9_theorem (fd : FileData) (env : MemEnv) (pc mc : Nat) (first : Bool)
    (hparse : fd.parseOk = true) (hfail : fd.failAt = none)
    (hbig : 5000 < fd.spectra.length)
    (hmem : (200 : ℚ) < env.mem (mc + 1) - env.mem mc)
    (hpause : ∀ p, env.pause p = false) :
    (process_single_file_streaming_safe fd first env pc mc).count = 2000 ∧
    (process_single_file_streaming_safe fd first env pc mc).largeDsLog =
      some 2000 ∧
    (process_single_file_streaming_safe fd first env pc mc).toks =
      (if first then ([] : List Tok) else [Tok.comma]) ++
      [Tok.dsOpen, Tok.spectraCount 2000, Tok.spectraOpen] ++
      recsToksFrom 0 (fd.spectra.take 2000) ++ [Tok.dsClose] := by
  have hne : fd.spectra ≠ [] := by
    intro h
    rw [h] at hbig
    simp at hbig
  obtain ⟨w, pcr, mcr, heq, h1, h2, h3, _⟩ :=
    processFile_nofail fd env pc mc first hparse hne hfail (hpause pc)
  have hcfg := chunkCfg_cap fd.spectra.length (env.mem (mc + 1) - env.mem mc)
    hbig hmem
  have hmin : min (chunkCfg fd.spectra.length
      (env.mem (mc + 1) - env.mem mc)).2.1 fd.spectra.length = 2000 := by
    rw [hcfg]
    simp
    omega
  have hw : w = 2000 := (h3 hpause).trans hmin
  refine ⟨by rw [heq]; exact hw, by rw [heq, hcfg], ?_⟩
  rw [heq, hmin, hw]

/-- C9 witness: a 5001-record file with a monitor measuring a 300 MB
increase after loading. -/
theorem c9_witness :
    ((5000 : Nat) < (List.range 5001).length ∧
      (200 : ℚ) < (⟨fun _ => false, fun n => if n = 1 then 300 else 0⟩ :
        MemEnv).mem (0 + 1) -
        (⟨fun _ => false, fun n => if n = 1 then 300 else 0⟩ : MemEnv).mem 0) ∧
    ((process_single_file_streaming_safe ⟨true, List.range 5001, none⟩ true
        ⟨fun _ => false, fun n => if n = 1 then 300 else 0⟩ 0 0).count = 2000 ∧
      (process_single_file_streaming_safe ⟨true, List.range 5001, none⟩ true
        ⟨fun _ => false, fun n => if n = 1 then 300 else 0⟩ 0 0).largeDsLog =
        some 2000) :=
  ⟨⟨by simp, by norm_num⟩,
    ⟨(c9_theorem ⟨true, List.range 5001, none⟩
        ⟨fun _ => false, fun n => if n = 1 then 300 else 0⟩ 0 0 true rfl rfl
        (by simp) (by norm_num) (fun _ => rfl)).1,
      (c9_theorem ⟨true, List.range 5001, none⟩
        ⟨fun _ => false, fun n => if n = 1 then 300 else 0⟩ 0 0 true rfl rfl
        (by simp) (by norm_num) (fun _ => rfl)).2.1⟩⟩

/-- C10: an exception part-way through writing a dataset's records makes
`process_single_file_streaming_safe` return 0, so in the batch loop the
file adds nothing to `datasets_processed` or `total_spectra` and
`first_dataset` is not advanced — the next file's entry is written with
no leading comma directly after the partial bytes that remain in the
batch output file. -/
theorem c10_theorem (f g : FileData) (env : MemEnv) (k : Nat)
    (hpause : ∀ p, env.pause p = false) (hmem : ∀ n, env.mem n = 0)
    (hfp : f.parseOk = true) (hff : f.failAt = some k)
    (hk : k < f.spectra.length) (hgp : g.parseOk = true)
    (hgf : g.failAt = none) (hgne : g.spectra ≠ []) :
    (process_single_file_streaming_safe f true env 1 0).count = 0 ∧
    (process_single_batch_threaded [f, g] env false).datasets = 1 ∧
    (process_single_batch_threaded [f, g] env false).spectra =
      g.spectra.length ∧
    (process_single_batch_threaded [f, g] env false).toks =
      some (Tok.batchHeader ::
        ([Tok.dsOpen, Tok.spectraCount f.spectra.length, Tok.spectraOpen] ++
          (recsToksFrom 0 (f.spectra.take k) ++
            ((if 0 < k then [Tok.recSep, Tok.recTrunc] else [Tok.recTrunc]) ++
              ([Tok.dsOpen, Tok.spectraCount g.spectra.length, Tok.spectraOpen] ++
                (recsToksFrom 0 g.spectra ++ [Tok.dsClose, Tok.batchFooter])))))) := by
  have hnc : ∀ m : Nat, ¬ (200 : ℚ) < env.mem (m + 1) - env.mem m := by
    intro m
    rw [hmem, hmem]
    norm_num
  obtain ⟨pcf, mcf, heqf⟩ :=
    processFile_fail f env 1 0 true k hfp hff hk hpause (hnc 0)
  obtain ⟨w, pcg, mcg, heqg, hw1, hw2, hw3, _⟩ :=
    processFile_nofail g env (pcf + 1) mcf true hgp hgne hgf (hpause _)
  have hming : min (chunkCfg g.spectra.length
      (env.mem (mcf + 1) - env.mem mcf)).2.1 g.spectra.length =
      g.spectra.length := by
    rw [(chunkCfg_no_cap _ _ (hnc mcf)).1]
    simp
  have hwg : w = g.spectra.length := (hw3 hpause).trans hming
  have hw0 : 0 < w := hw1
  refine ⟨by rw [heqf], ?_, ?_, ?_⟩
  · simp [process_single_batch_threaded, batchLoop, hpause, heqf, heqg, hw0]
  · simp [process_single_batch_threaded, batchLoop, hpause, heqf, heqg, hw0, hwg]
  · simp [process_single_batch_threaded, batchLoop, hpause, heqf, heqg, hw0, hwg,
      hming, List.take_length]

/-- C10 witness: file [1, 2] failing at record 1 followed by the clean
one-record file [9]. -/
theorem c10_witness :
    ((1 : Nat) < ([1, 2] : List Nat).length ∧ ([9] : List Nat) ≠ []) ∧
    ((process_single_file_streaming_safe ⟨true, [1, 2], some 1⟩ true
        ⟨fun _ => false, fun _ => 0⟩ 1 0).count = 0 ∧
      (process_single_batch_threaded [⟨true, [1, 2], some 1⟩, ⟨true, [9], none⟩]
        ⟨fun _ => false, fun _ => 0⟩ false).datasets = 1 ∧
      (process_single_batch_threaded [⟨true, [1, 2], some 1⟩, ⟨true, [9], none⟩]
        ⟨fun _ => false, fun _ => 0⟩ false).spectra =
        ([9] : List Nat).length) :=
  ⟨⟨by decide, by decide⟩,
    ⟨(c10_theorem ⟨true, [1, 2], some 1⟩ ⟨true, [9], none⟩
        ⟨fun _ => false, fun _ => 0⟩ 1 (fun _ => rfl) (fun _ => rfl) rfl rfl
        (by decide) rfl rfl (by decide)).1,
      (c10_theorem ⟨true, [1, 2], some 1⟩ ⟨true, [9], none⟩
        ⟨fun _ => false, fun _ => 0⟩ 1 (fun _ => rfl) (fun _ => rfl) rfl rfl
        (by decide) rfl rfl (by decide)).2.1,
      (c10_theorem ⟨true, [1, 2], some 1⟩ ⟨true, [9], none⟩
        ⟨fun _ => false, fun _ => 0⟩ 1 (fun _ => rfl) (fun _ => rfl) rfl rfl
        (by decide) rfl rfl (by decide)).2.2.1⟩⟩

end EcosisCurator
